import Mathlib

/-!
Verification development for the YouTube quality-of-life bot (src/bot.ts).

The TypeScript source is shallowly embedded below.  Strings are modelled as
`List Char`; JavaScript `undefined`-able values as `Option`; runtime
`TypeError`s (dereferencing `undefined`) as an explicit error constructor or
`Except.error`.  JavaScript regular expressions used by the source are
alternations of string literals whose branches have pairwise distinct
first-sets, so the backtracking regex semantics coincides with the committed
(PEG-style) parsers written here; each such parser carries a comment citing
the regex it implements.
-/

/-- JavaScript `\s` (the ASCII fragment exercised by the bot): space, tab,
line feed, vertical tab, form feed, carriage return. -/
def isSpaceChar (c : Char) : Bool :=
  c == ' ' || c == '\t' || c == '\n' || c == '\r' || c == '\x0b' || c == '\x0c'

/-- JavaScript character class `[\w-]`: ASCII letters, digits, underscore, hyphen. -/
def isWordDash (c : Char) : Bool :=
  c.isAlphanum || c == '_' || c == '-'

/-- JavaScript line terminators relevant to `.` in a regex: LF and CR. -/
def isLineTerm (c : Char) : Bool :=
  c == '\n' || c == '\r'

/-- The decimal digit characters, for rendering numbers the way a JS template
literal renders an integer. -/
def digitChar (d : Nat) : Char :=
  match d with
  | 0 => '0' | 1 => '1' | 2 => '2' | 3 => '3' | 4 => '4'
  | 5 => '5' | 6 => '6' | 7 => '7' | 8 => '8' | _ => '9'

/-- Numeric value of a decimal digit character (0 for non-digits; only applied
to digits in the proofs). -/
def charVal (c : Char) : Nat :=
  match c with
  | '0' => 0 | '1' => 1 | '2' => 2 | '3' => 3 | '4' => 4
  | '5' => 5 | '6' => 6 | '7' => 7 | '8' => 8 | '9' => 9
  | _ => 0

/-- Big-endian decimal digits of `n`, fuelled so the recursion is structural
(the fuel only bounds the digit count; `fuel = n` always suffices). -/
def natToCharsAux : Nat → Nat → List Char
  | 0, _ => []
  | fuel + 1, n => if n = 0 then [] else natToCharsAux fuel (n / 10) ++ [digitChar (n % 10)]

/-- How a JS template literal renders a non-negative integer: decimal digits,
with `0` rendered as `"0"`. -/
def natToChars (n : Nat) : List Char :=
  if n = 0 then ['0'] else natToCharsAux n n

/-- Model of JS `parseInt` on the strings this bot produces: read the leading
run of decimal digits; `NaN` (no digits) becomes `none`. -/
def parseIntList (l : List Char) : Option Nat :=
  let ds := l.takeWhile Char.isDigit
  if ds.isEmpty then none
  else some (ds.foldl (fun a c => 10 * a + charVal c) 0)

/-- Strip a literal pattern from the front of a list, returning the remainder. -/
def stripLit : List Char → List Char → Option (List Char)
  | [], l => some l
  | _ :: _, [] => none
  | p :: ps, c :: cs => if p = c then stripLit ps cs else none

/-- First alternative of a literal alternation that matches at the front, with
its remainder.  Models a regex alternation whose branches are string literals. -/
def parseAlt (pats : List (List Char)) (l : List Char) : Option (List Char × List Char) :=
  match pats with
  | [] => none
  | p :: ps =>
    match stripLit p l with
    | some r => some (p, r)
    | none => parseAlt ps l

/-- Consume exactly `n` characters satisfying `[\w-]`, as the regex piece
`[\w-]{11}` does (with `n = 11`). -/
def takeWordDash : Nat → List Char → Option (List Char × List Char)
  | 0, l => some ([], l)
  | _ + 1, [] => none
  | n + 1, c :: cs =>
    if isWordDash c then
      match takeWordDash n cs with
      | some (pre, rest) => some (c :: pre, rest)
      | none => none
    else none

/-- JS `String.prototype.split` with a one-character separator. -/
def splitOnChar (sep : Char) : List Char → List (List Char)
  | [] => [[]]
  | c :: rest =>
    if c = sep then [] :: splitOnChar sep rest
    else
      match splitOnChar sep rest with
      | [] => [[c]]
      | f :: fs => (c :: f) :: fs

/-- Join fields with the `|` separator, as the template literal
`` `${a}|${b}|...` `` in `buildInlineKeyboard` does. -/
def joinPipe : List (List Char) → List Char
  | [] => []
  | [x] => x
  | x :: xs => x ++ '|' :: joinPipe xs

/-- Index of the first occurrence of `pat` as a contiguous sublist of `l`
(JS `String.prototype.indexOf` / the scan done by `String.prototype.includes`,
`String.prototype.replace` with a string pattern, and `String.prototype.split`
with a string separator). -/
def findSublistIdx (pat l : List Char) : Option Nat :=
  (List.range (l.length + 1)).find? (fun i => pat.isPrefixOf (l.drop i))

/-- JS `String.prototype.includes`. -/
def includesSubstr (l pat : List Char) : Bool :=
  (findSublistIdx pat l).isSome

/-- JS `String.prototype.replace` with a string pattern: replace the first
occurrence of `pat` by `rep`. -/
def replaceFirst (pat rep l : List Char) : List Char :=
  match findSublistIdx pat l with
  | none => l
  | some i => l.take i ++ rep ++ l.drop (i + pat.length)

/-! ## URL Extractor (`extractYoutubeURL`, bot.ts lines 59-65)

The source regex is

  `/(https?:\/\/(?:(?:www|music)\.)?(?:youtube\.com\/(?:watch\?v=|shorts\/)|youtu\.be\/)[\w-]{11}[^\s]*)/`

and `text.match` returns the whole match at the leftmost position where the
regex matches, or `undefined`.  Every alternation above is between string
literals with pairwise distinct continuations ("https://" vs "http://",
"www." vs "music." vs the mandatory following 'y', "youtube.com/watch?v=" vs
"youtube.com/shorts/" vs "youtu.be/"), so committed left-to-right trial of the
alternatives is exactly the regex's backtracking behaviour. -/

/-- The scheme alternatives `https?:\/\/`, in the order backtracking tries them. -/
def schemeLits : List (List Char) :=
  [['h','t','t','p','s',':','/','/'], ['h','t','t','p',':','/','/']]

/-- The optional host alternatives `(?:(?:www|music)\.)?`. -/
def hostLits : List (List Char) :=
  [['w','w','w','.'], ['m','u','s','i','c','.']]

/-- The path alternatives
`(?:youtube\.com\/(?:watch\?v=|shorts\/)|youtu\.be\/)`, flattened. -/
def pathLits : List (List Char) :=
  [['y','o','u','t','u','b','e','.','c','o','m','/','w','a','t','c','h','?','v','='],
   ['y','o','u','t','u','b','e','.','c','o','m','/','s','h','o','r','t','s','/'],
   ['y','o','u','t','u','.','b','e','/']]

/-- The host alternatives together with the empty choice of the `?` quantifier. -/
def hostOpts : List (List Char) := [] :: hostLits

/-- Attempt the YouTube-URL regex anchored at the start of `l`; on success
return the full match (group 0). -/
def matchYoutubeAt (l : List Char) : Option (List Char) :=
  match parseAlt schemeLits l with
  | none => none
  | some (s, r1) =>
    let hr :=
      match parseAlt hostLits r1 with
      | some p => p
      | none => (([] : List Char), r1)
    match parseAlt pathLits hr.2 with
    | none => none
    | some (p, r3) =>
      match takeWordDash 11 r3 with
      | none => none
      | some (idc, r4) =>
        some (s ++ hr.1 ++ p ++ idc ++ r4.takeWhile (fun c => !(isSpaceChar c)))

/-- `extractYoutubeURL` (bot.ts lines 59-65): first position at which the
regex matches wins; no match yields `undefined` (`none`). -/
def extractYoutubeURL : List Char → Option (List Char)
  | [] => matchYoutubeAt []
  | l@(_ :: rest) =>
    match matchYoutubeAt l with
    | some m => some m
    | none => extractYoutubeURL rest

/-- Spec-level notion of a well-formed YouTube URL, from §4.1 of the spec:
a scheme `https?://`, an optional `www.`/`music.` host prefix, one of the
three recognised path shapes, an 11-character `[\w-]` id, then trailing
non-whitespace characters (the retained query string). -/
def wellFormedYoutubeURL (u : List Char) : Bool :=
  schemeLits.any fun s => hostOpts.any fun h => pathLits.any fun p =>
    (s ++ h ++ p).isPrefixOf u &&
    (decide (11 ≤ (u.drop (s ++ h ++ p).length).length) &&
     ((u.drop (s ++ h ++ p).length).take 11).all isWordDash &&
     ((u.drop (s ++ h ++ p).length).drop 11).all (fun c => !(isSpaceChar c)))

/-- A well-formed URL could start at this position of the text: scheme,
optional host, path shape and 11 id characters are all present.  Used to state
"the surrounding prose contains no URL". -/
def urlShapeAt (l : List Char) : Bool :=
  schemeLits.any fun s => hostOpts.any fun h => pathLits.any fun p =>
    (s ++ h ++ p).isPrefixOf l &&
    (decide (11 ≤ (l.drop (s ++ h ++ p).length).length) &&
     ((l.drop (s ++ h ++ p).length).take 11).all isWordDash)

/-- The text following a URL either ends or continues with whitespace, so the
greedy `[^\s]*` stops exactly at the URL's end. -/
def boundaryOk (a : List Char) : Bool :=
  match a with
  | [] => true
  | c :: _ => isSpaceChar c

/-! ## Quality mapping (`getQualityID`, bot.ts lines 441-459) -/

/-- `allowedFormats` (bot.ts line 441). -/
def allowedFormats : List String :=
  ["144p", "240p", "360p", "480p", "720p", "1080p", "1440p", "4K"]

/-- `QUALITY_LEVELS` (bot.ts lines 442-450): ascending thresholds with labels. -/
def QUALITY_LEVELS : List (Nat × String) :=
  [(360, "240p"), (480, "360p"), (720, "480p"), (1080, "720p"),
   (1440, "1080p"), (2160, "1440p"), (4320, "4K")]

/-- `getQualityID` (bot.ts lines 452-459): first level whose threshold exceeds
the height wins; otherwise the `"4K"` fallback. -/
def getQualityID (height : Nat) : String :=
  match QUALITY_LEVELS.find? (fun level => decide (height < level.1)) with
  | some level => level.2
  | none => "4K"

/-! ## Size formatting (`formatSize`, bot.ts lines 584-592)

The source computes `kb = bytes / 1024`, `i = Math.floor(Math.log(kb) /
Math.log(1024))` and renders `parseFloat((kb / 1024 ** i).toFixed(1))` followed
by `sizes[i]`.  For `bytes ≥ 1024` (the only sizes the bot ever formats:
filesizes of media tracks) the float computation agrees with the exact value
`i = ⌊log₁₀₂₄ bytes⌋ - 1`: away from unit boundaries the double-precision error
of the log quotient is far below the distance to the next integer, and at exact
boundaries `Math.log(1024^k) = k * Math.log(1024)` holds exactly in IEEE
doubles because scaling by a power of two commutes with rounding.  `toFixed(1)`
picks the integer `n` minimising `|n/10 - x|`, preferring the larger `n` on
ties, i.e. `n = ⌊10x + 1/2⌋`, realised below on naturals as
`(2*(10*bytes) + D) / (2*D)` with `D = 1024^(i+1)`.  `parseFloat` then drops a
trailing `.0`, and the template literal renders the resulting number. -/

/-- `⌊log₁₀₂₄ n⌋`, fuelled structurally (fuel `n` always suffices). -/
def log1024Aux : Nat → Nat → Nat
  | 0, _ => 0
  | fuel + 1, n => if n < 1024 then 0 else log1024Aux fuel (n / 1024) + 1

/-- `⌊log₁₀₂₄ n⌋` for positive `n`. -/
def log1024 (n : Nat) : Nat := log1024Aux n n

/-- The `sizes` array of `formatSize`; out-of-range indexing yields the string
a template literal makes of `undefined`. -/
def sizeUnits (i : Nat) : List Char :=
  ((["KB", "MB", "GB"].getD i "undefined") : String).toList

/-- `formatSize` (bot.ts lines 584-592), for `bytes ≥ 1024`; see the section
comment for the correspondence with the floating-point source. -/
def formatSize (bytes : Nat) : List Char :=
  let i := log1024 bytes - 1
  let D := 1024 ^ (i + 1)
  let deci := (2 * (10 * bytes) + D) / (2 * D)
  natToChars (deci / 10) ++
    (if deci % 10 = 0 then [] else '.' :: natToChars (deci % 10)) ++
    sizeUnits i

/-! ## Format model and `processVideoInfo` (bot.ts lines 524-570) -/

/-- One entry of `VideoInfo.formats`.  `vcodec`/`acodec` are absent or a codec
string (possibly the literal `"none"`); `filesize`, `height`, `width` are
absent or numbers.  JS truthiness of a number field is `≠ 0`. -/
structure FormatEntry where
  format_id : List Char
  vcodec : Option String
  acodec : Option String
  filesize : Option Nat
  height : Option Nat
  width : Option Nat
deriving DecidableEq

/-- JS truthiness of an optional numeric field: present and non-zero. -/
def truthyNum : Option Nat → Bool
  | none => false
  | some n => !(n == 0)

/-- Stable insertion into a sorted list: `a` goes before the first element `b`
with `le a b`.  Together with `stableSort` this models ES2019
`Array.prototype.sort`, which is required to be stable; any stable sort agrees
with it elementwise for a consistent comparator. -/
def orderedInsertB (le : FormatEntry → FormatEntry → Bool) (a : FormatEntry) :
    List FormatEntry → List FormatEntry
  | [] => [a]
  | b :: l => if le a b then a :: b :: l else b :: orderedInsertB le a l

/-- Stable sort by insertion; see `orderedInsertB`. -/
def stableSort (le : FormatEntry → FormatEntry → Bool) : List FormatEntry → List FormatEntry
  | [] => []
  | a :: l => orderedInsertB le a (stableSort le l)

/-- bot.ts lines 532-534: `info.formats.filter(f => f.vcodec != "none" &&
f.filesize && f.height).sort((a, b) => a.filesize - b.filesize)` — the
comparator is ascending (smallest filesize first), **despite** the source
comment "sort by filesize in reverse (largest first)". -/
def videoformats (formats : List FormatEntry) : List FormatEntry :=
  stableSort (fun a b => decide (a.filesize.getD 0 ≤ b.filesize.getD 0))
    (formats.filter fun f =>
      !(f.vcodec == some "none") && truthyNum f.filesize && truthyNum f.height)

/-- bot.ts lines 537-539: `info.formats.filter(f => f.acodec != "none" &&
f.filesize).sort((a, b) => b.filesize - a.filesize)[0]` — descending sort, so
index 0 is the largest audio track; `undefined` when no entry qualifies. -/
def largestAudioTrack (formats : List FormatEntry) : Option FormatEntry :=
  (stableSort (fun a b => decide (b.filesize.getD 0 ≤ a.filesize.getD 0))
    (formats.filter fun f => !(f.acodec == some "none") && truthyNum f.filesize)).head?

/-- The tuple `[fID, filesize, h, w]` stored per quality label (bot.ts
line 555).  `width` is taken with a non-null assertion in the source, so an
absent width flows through as `undefined`; it is kept optional here. -/
structure TierSlot where
  fID : List Char
  filesize : Nat
  h : Nat
  w : Option Nat
deriving DecidableEq

/-- Assignment to a JS object key: overwrite in place if the key exists
(JS objects keep the original insertion position), else append. -/
def ladderSet (m : List (String × TierSlot)) (k : String) (v : TierSlot) :
    List (String × TierSlot) :=
  if m.any (fun p => p.1 == k) then
    m.map (fun p => if p.1 == k then (k, v) else p)
  else m ++ [(k, v)]

/-- bot.ts lines 543-556: the `existingFormats` record built by iterating the
ascending-sorted `videoformats` and unconditionally writing each entry into
its tier's slot — so the **last** write (the largest filesize at that tier)
survives. -/
def existingFormats (formats : List FormatEntry) : List (String × TierSlot) :=
  (videoformats formats).foldl
    (fun m f =>
      ladderSet m (getQualityID (f.height.getD 0))
        ⟨f.format_id, f.filesize.getD 0, f.height.getD 0, f.width⟩)
    []

/-! ## SelectionAction transport (bot.ts lines 594-607 encode, 215-230 decode) -/

/-- The characters `"+ba"` appended to a video format id in the callback
payload (bot.ts line 605). -/
def plusBA : List Char := ['+', 'b', 'a']

/-- A numeric field as the template literal renders it: digits, or
`"undefined"` for an absent value under the source's non-null assertion. -/
def optNatChars : Option Nat → List Char
  | none => ("undefined" : String).toList
  | some n => natToChars n

/-- The video-button callback payload
`` `${video_id}|${id}+ba|${info.duration}|${h}|${w}|${user_msg_id}` ``
(bot.ts lines 603-606). -/
def encodeVideoAction (video_id fid : List Char) (duration h : Nat) (w : Option Nat)
    (user_msg_id : Nat) : List Char :=
  joinPipe [video_id, fid ++ plusBA, natToChars duration, natToChars h,
            optNatChars w, natToChars user_msg_id]

/-- The audio-button callback payload
`` `${info.id}|ba|${info.duration}|||${user_msg_id}` `` (bot.ts line 596). -/
def encodeAudioAction (video_id : List Char) (duration user_msg_id : Nat) : List Char :=
  joinPipe [video_id, ['b', 'a'], natToChars duration, [], [], natToChars user_msg_id]

/-- The state decoded by the `CallbackQueryHandler` constructor (bot.ts lines
215-230): destructured split fields, `parseInt` of the originating message id
(`none` models `NaN`), and the `isAudio` test `!height && !width` (empty
strings are falsy).  The field is named `audioOnly` here. -/
structure SelectionAction where
  video_id : List Char
  format : List Char
  duration : List Char
  height : List Char
  width : List Char
  original_user_msg_id : Option Nat
  audioOnly : Bool
deriving DecidableEq

/-- `CallbackQueryHandler` constructor decode (bot.ts lines 217-230):
`data.split("|")` destructured into six fields (a missing component is
`undefined`, modelled as the empty field it behaves as downstream). -/
def decodeCallbackData (data : List Char) : SelectionAction :=
  let parts := splitOnChar '|' data
  let height := parts.getD 3 []
  let width := parts.getD 4 []
  { video_id := parts.getD 0 []
    format := parts.getD 1 []
    duration := parts.getD 2 []
    height := height
    width := width
    original_user_msg_id := parseIntList (parts.getD 5 [])
    audioOnly := height.isEmpty && width.isEmpty }

/-! ## Menu Builder (`buildInlineKeyboard`, bot.ts lines 578-610) -/

/-- One inline-keyboard button: display label and callback payload. -/
structure Button where
  label : List Char
  callback_data : List Char
deriving DecidableEq

/-- `allowedFormats.indexOf(res)` (bot.ts line 600).  Tier labels produced by
`getQualityID` are always members of `allowedFormats`, so the JS `-1` case for
an absent element is unreachable; `findIdx` returning the length in that case
is harmless. -/
def allowedFormatsIdx (res : String) : Nat :=
  allowedFormats.findIdx (fun s => s == res)

/-- Stable sort of the tier entries, for the comparator
`allowedFormats.indexOf(res1) - allowedFormats.indexOf(res2)`
(bot.ts line 600); see `orderedInsertB` on stability. -/
def orderedInsertEntry (a : String × TierSlot) :
    List (String × TierSlot) → List (String × TierSlot)
  | [] => [a]
  | b :: l =>
    if allowedFormatsIdx a.1 ≤ allowedFormatsIdx b.1 then a :: b :: l
    else b :: orderedInsertEntry a l

/-- Stable sort by insertion for tier entries. -/
def sortEntries : List (String × TierSlot) → List (String × TierSlot)
  | [] => []
  | a :: l => orderedInsertEntry a (sortEntries l)

/-- `buildInlineKeyboard` (bot.ts lines 578-610).  The very first statement
evaluates `largest_audio.filesize!`; when no audio-bearing format with a known
filesize exists, `largest_audio` is `undefined` and the property access throws
a `TypeError`, modelled by `Except.error ()`.  Otherwise the music button is
followed by one row per tier entry, sorted by position in `allowedFormats`. -/
def buildInlineKeyboard (video_id : List Char) (duration user_msg_id : Nat)
    (entries : List (String × TierSlot)) (la : Option FormatEntry) :
    Except Unit (List Button) :=
  match la with
  | none => Except.error ()
  | some a =>
    let audioSize := a.filesize.getD 0
    let music : Button :=
      ⟨("Music (≈" : String).toList ++ formatSize audioSize ++ [')'],
       encodeAudioAction video_id duration user_msg_id⟩
    Except.ok (music ::
      (sortEntries entries).map fun e =>
        ⟨e.1.toList ++ (" (≤" : String).toList ++
           formatSize (e.2.filesize + audioSize) ++ [')'],
         encodeVideoAction video_id e.2.fID duration e.2.h e.2.w user_msg_id⟩)

/-! ## Delivery Assembler, audio branch (`send`, bot.ts lines 356-380) -/

/-- The regex `/^<b>\[.*?\]<\/b>\s*(.*)/` applied to the first description
line (bot.ts line 364): literal `<b>[`, lazily up to the first `]</b>`
(whose skipped segment may not contain a line terminator, as `.` excludes
them), then greedily skipped whitespace, then the captured remainder up to a
line terminator.  Returns capture group 1. -/
def parseTitleLine (line : List Char) : Option (List Char) :=
  match stripLit (("<b>[" : String).toList) line with
  | none => none
  | some r =>
    match findSublistIdx (("]</b>" : String).toList) r with
    | none => none
    | some i =>
      if (r.take i).any isLineTerm then none
      else some (((r.drop (i + 5)).dropWhile isSpaceChar).takeWhile (fun c => !(isLineTerm c)))

/-- The regex `/^By <b>(.*?)<\/b>/` applied to the second description line
(bot.ts line 369): literal `By <b>`, lazy capture up to the first `</b>`.
Returns capture group 1. -/
def parseAuthorLine (line : List Char) : Option (List Char) :=
  match stripLit (("By <b>" : String).toList) line with
  | none => none
  | some r =>
    match findSublistIdx (("</b>" : String).toList) r with
    | none => none
    | some i =>
      if (r.take i).any isLineTerm then none
      else some (r.take i)

/-- Outcome of the audio-metadata computation inside `send`:
either the `title`/`performer` pair passed to `replyWithAudio`, or the
`TypeError` thrown by `descrLines[1].match` when the description has fewer
than two lines. -/
inductive AudioMetaResult where
  | ok (title performer : List Char)
  | throwTypeError
deriving DecidableEq

/-- The `"Unknown Artist"` fallback (bot.ts line 370). -/
def UNKNOWN_ARTIST : List Char := ("Unknown Artist" : String).toList

/-- The `" - Topic"` suffix removed from the author (bot.ts line 370). -/
def TOPIC_MARK : List Char := (" - Topic" : String).toList

/-- The audio branch of `send` (bot.ts lines 356-371): with no description
file, `title` and `author` stay the empty strings they were initialised to;
with a description, the title comes from line 1 (`|| video_id` — JS `||`,
so an empty capture also falls back), then `descrLines[1]` is dereferenced —
a `TypeError` when there is no second line — and the author comes from line 2
with the first `" - Topic"` occurrence removed (`|| "Unknown Artist"`). -/
def audioMetaOfDescription (descr : Option (List Char)) (video_id : List Char) :
    AudioMetaResult :=
  match descr with
  | none => AudioMetaResult.ok [] []
  | some d =>
    let lines := splitOnChar '\n' d
    let title :=
      match parseTitleLine (lines.headD []) with
      | some t => if t.isEmpty then video_id else t
      | none => video_id
    match lines.get? 1 with
    | none => AudioMetaResult.throwTypeError
    | some line1 =>
      let author :=
        match parseAuthorLine line1 with
        | some a =>
          let a2 := replaceFirst TOPIC_MARK [] a
          if a2.isEmpty then UNKNOWN_ARTIST else a2
        | none => UNKNOWN_ARTIST
      AudioMetaResult.ok title author

/-! ## Error classification (bot.ts lines 621-628 and 686-693) -/

/-- The three keys of `errorMessages` (bot.ts lines 128-144). -/
inductive ErrorCategory where
  | atGettingInfo
  | atDownload
  | badURL
deriving DecidableEq

/-- The substring tested by both metadata-fetch catch blocks. -/
def NOT_A_VALID_URL : List Char := ("not a valid URL" : String).toList

/-- The catch block of `URLMessageHandler.handle` (bot.ts lines 621-628):
` `${e}`.includes("not a valid URL") ` selects `badURL`, else `atGettingInfo`. -/
def classifyFetchErrorURLMessage (e : List Char) : ErrorCategory :=
  if includesSubstr e NOT_A_VALID_URL then ErrorCategory.badURL
  else ErrorCategory.atGettingInfo

/-- The catch block of `FormatCommandHandler.handle` (bot.ts lines 686-693):
textually the same classification. -/
def classifyFetchErrorFormatCommand (e : List Char) : ErrorCategory :=
  if includesSubstr e NOT_A_VALID_URL then ErrorCategory.badURL
  else ErrorCategory.atGettingInfo

/-! ## Cleanup Manager (`cleanUpFiles`, bot.ts lines 386-406) -/

/-- `unlinkSync`: removes the path if present, otherwise throws (`none`). -/
def unlinkSync (fs : List String) (p : String) : Option (List String) :=
  if p ∈ fs then some (fs.erase p) else none

/-- Result of a cleanup run: the surviving filesystem and the deletions that
were actually attempted, in order. -/
structure CleanupResult where
  fs : List String
  attempted : List String
deriving DecidableEq

/-- `cleanUpFiles` (bot.ts lines 386-406): the three `unlinkSync` calls sit in
a **single** `try` block whose `catch` only logs, so the first failing
deletion aborts the remaining ones (but never raises). -/
def cleanUpFiles (fs : List String) (stored thumb descr : String) : CleanupResult :=
  match unlinkSync fs stored with
  | none => ⟨fs, [stored]⟩
  | some fs1 =>
    match unlinkSync fs1 thumb with
    | none => ⟨fs1, [stored, thumb]⟩
    | some fs2 =>
      match unlinkSync fs2 descr with
      | none => ⟨fs2, [stored, thumb, descr]⟩
      | some fs3 => ⟨fs3, [stored, thumb, descr]⟩

/-! ## `/format` command constructor (bot.ts lines 655-673) -/

/-- JS `String.prototype.split` with a multi-character separator, fuelled
structurally (fuel `l.length` suffices: each found separator is non-empty). -/
def splitOnSubAux (sep : List Char) : Nat → List Char → List (List Char)
  | 0, l => [l]
  | fuel + 1, l =>
    match findSublistIdx sep l with
    | none => [l]
    | some i => l.take i :: splitOnSubAux sep fuel (l.drop (i + sep.length))

/-- JS `text.split(sep)` for a non-empty string separator. -/
def splitOnSub (sep l : List Char) : List (List Char) :=
  splitOnSubAux sep l.length l

/-- The separator `"/format "` (bot.ts line 661). -/
def FORMAT_SPACE : List Char := ("/format " : String).toList

/-- The observable outcomes of the `FormatCommandHandler` constructor. -/
inductive FormatCtorOutcome where
  | throwTypeError
  | invalidWithReply
  | valid (url : List Char)
deriving DecidableEq

/-- `FormatCommandHandler` constructor (bot.ts lines 655-673):
`extractYoutubeURL(text.split("/format ")[1])` — when the split has no second
component (the bare `/format` command), the argument is `undefined` and
`undefined.match` inside `extractYoutubeURL` throws a `TypeError`; otherwise a
failed extraction marks the handler invalid and replies with the guidance
message, and a successful one stores the URL. -/
def formatCommandCtor (text : List Char) : FormatCtorOutcome :=
  match (splitOnSub FORMAT_SPACE text).get? 1 with
  | none => FormatCtorOutcome.throwTypeError
  | some arg =>
    match extractYoutubeURL arg with
    | none => FormatCtorOutcome.invalidWithReply
    | some u => FormatCtorOutcome.valid u

/-! ## Helper lemmas -/

theorem stripLit_self (p : List Char) : ∀ r, stripLit p (p ++ r) = some r := by
  induction p with
  | nil => intro r; rfl
  | cons c cs ih => intro r; simp [stripLit, ih]

theorem stripLit_peel (x : List Char) :
    ∀ a b, stripLit (x ++ a) (x ++ b) = stripLit a b := by
  induction x with
  | nil => intro a b; rfl
  | cons c cs ih => intro a b; simp [stripLit, ih]

theorem stripLit_head_ne {c d : Char} (h : c ≠ d) (p l : List Char) :
    stripLit (c :: p) (d :: l) = none := by
  simp [stripLit, h]

theorem stripLit_some_decomp {p : List Char} :
    ∀ {l r : List Char}, stripLit p l = some r → l = p ++ r := by
  induction p with
  | nil =>
    intro l r h
    simp only [stripLit, Option.some.injEq] at h
    simp [h]
  | cons c cs ih =>
    intro l r h
    match l with
    | [] => exact absurd h (by simp [stripLit])
    | d :: ds =>
      simp only [stripLit] at h
      split at h
      · next heq => subst heq; simpa using ih h
      · exact absurd h (by simp)

theorem parseAlt_some_decomp {pats : List (List Char)} :
    ∀ {l : List Char} {p r : List Char},
      parseAlt pats l = some (p, r) → p ∈ pats ∧ l = p ++ r := by
  induction pats with
  | nil => intro l p r h; exact absurd h (by simp [parseAlt])
  | cons q qs ih =>
    intro l p r h
    simp only [parseAlt] at h
    cases hq : stripLit q l with
    | some r0 =>
      rw [hq] at h
      obtain ⟨rfl, rfl⟩ : q = p ∧ r0 = r := by
        simpa [Prod.ext_iff] using h
      exact ⟨by simp, stripLit_some_decomp hq⟩
    | none =>
      rw [hq] at h
      obtain ⟨hm, hd⟩ := ih h
      exact ⟨by simp [hm], hd⟩

theorem splitOnChar_no_sep {sep : Char} :
    ∀ {x : List Char}, sep ∉ x → splitOnChar sep x = [x] := by
  intro x
  induction x with
  | nil => intro _; rfl
  | cons c cs ih =>
    intro hmem
    have hc : c ≠ sep := fun h => hmem (by simp [h])
    have hcs : sep ∉ cs := fun h => hmem (by simp [h])
    simp [splitOnChar, hc, ih hcs]

theorem splitOnChar_append_sep {sep : Char} :
    ∀ {x : List Char}, sep ∉ x →
      ∀ r, splitOnChar sep (x ++ sep :: r) = x :: splitOnChar sep r := by
  intro x
  induction x with
  | nil => intro _ r; simp [splitOnChar]
  | cons c cs ih =>
    intro hmem r
    have hc : c ≠ sep := fun h => hmem (by simp [h])
    have hcs : sep ∉ cs := fun h => hmem (by simp [h])
    have := ih hcs r
    simp [List.cons_append, splitOnChar, hc, this]

theorem splitOnChar_joinPipe :
    ∀ {parts : List (List Char)}, parts ≠ [] → (∀ x ∈ parts, '|' ∉ x) →
      splitOnChar '|' (joinPipe parts) = parts := by
  intro parts
  induction parts with
  | nil => intro h _; exact absurd rfl h
  | cons x xs ih =>
    intro _ hfree
    match xs with
    | [] => exact splitOnChar_no_sep (hfree x (by simp))
    | y :: ys =>
      have hx : '|' ∉ x := hfree x (by simp)
      have : joinPipe (x :: y :: ys) = x ++ '|' :: joinPipe (y :: ys) := rfl
      rw [this, splitOnChar_append_sep hx, ih (by simp) (fun z hz => hfree z (by simp [hz]))]

theorem digitChar_isDigit {d : Nat} (h : d < 10) : (digitChar d).isDigit = true := by
  revert h
  revert d
  decide

theorem charVal_digitChar {d : Nat} (h : d < 10) : charVal (digitChar d) = d := by
  revert h
  revert d
  decide

theorem natToCharsAux_digits :
    ∀ fuel n, ∀ c ∈ natToCharsAux fuel n, c.isDigit = true := by
  intro fuel
  induction fuel with
  | zero => intro n c hc; simp [natToCharsAux] at hc
  | succ fuel ih =>
    intro n c hc
    by_cases h0 : n = 0
    · simp [natToCharsAux, h0] at hc
    · simp only [natToCharsAux, if_neg h0, List.mem_append, List.mem_singleton] at hc
      rcases hc with hc | rfl
      · exact ih _ c hc
      · exact digitChar_isDigit (Nat.mod_lt _ (by norm_num))

theorem natToChars_digits (n : Nat) : ∀ c ∈ natToChars n, c.isDigit = true := by
  intro c hc
  by_cases h0 : n = 0
  · simp [natToChars, h0] at hc
    simp [hc]
  · simp only [natToChars, if_neg h0] at hc
    exact natToCharsAux_digits n n c hc

theorem pipe_not_mem_natToChars (n : Nat) : '|' ∉ natToChars n := by
  intro hmem
  have := natToChars_digits n '|' hmem
  simp [Char.isDigit] at this

theorem natToChars_ne_nil (n : Nat) : natToChars n ≠ [] := by
  by_cases h0 : n = 0
  · simp [natToChars, h0]
  · have h1 : 1 ≤ n := Nat.one_le_iff_ne_zero.mpr h0
    obtain ⟨fuel, hfuel⟩ : ∃ fuel, n = fuel + 1 := ⟨n - 1, by omega⟩
    simp [natToChars, h0, hfuel, natToCharsAux]

theorem natToCharsAux_foldl :
    ∀ fuel n acc, n ≤ fuel →
      (natToCharsAux fuel n).foldl (fun a c => 10 * a + charVal c) acc =
        acc * 10 ^ (natToCharsAux fuel n).length + n := by
  intro fuel
  induction fuel with
  | zero => intro n acc hn; interval_cases n; simp [natToCharsAux]
  | succ fuel ih =>
    intro n acc hn
    by_cases h0 : n = 0
    · simp [natToCharsAux, h0]
    · have hdiv : n / 10 ≤ fuel := by
        have : n / 10 < n := Nat.div_lt_self (by omega) (by norm_num)
        omega
      simp only [natToCharsAux, if_neg h0, List.foldl_append, List.foldl_cons,
        List.foldl_nil, List.length_append, List.length_cons, List.length_nil]
      rw [ih _ acc hdiv, charVal_digitChar (Nat.mod_lt _ (by norm_num))]
      have hnm : 10 * (n / 10) + n % 10 = n := by omega
      ring_nf
      omega

theorem parseIntList_natToChars (n : Nat) : parseIntList (natToChars n) = some n := by
  by_cases h0 : n = 0
  · subst h0; rfl
  · have hall : ∀ c ∈ natToChars n, c.isDigit = true := natToChars_digits n
    have htw : (natToChars n).takeWhile Char.isDigit = natToChars n :=
      List.takeWhile_eq_self_iff.mpr hall
    have hne : ¬(natToChars n).isEmpty = true := by
      simpa [List.isEmpty_iff] using natToChars_ne_nil n
    simp only [parseIntList, htw, hne, if_neg hne, Option.some.injEq]
    have := natToCharsAux_foldl n n 0 (le_refl n)
    simpa [natToChars, h0] using this

theorem isPrefixOf_append_self : ∀ (p r : List Char), p.isPrefixOf (p ++ r) = true := by
  intro p
  induction p with
  | nil => intro r; simp [List.isPrefixOf]
  | cons c cs ih => intro r; simp [List.isPrefixOf, ih]

theorem isPrefixOf_decomp :
    ∀ (p l : List Char), p.isPrefixOf l = true → l = p ++ l.drop p.length := by
  intro p
  induction p with
  | nil => intro l _; simp
  | cons c cs ih =>
    intro l h
    match l with
    | [] => simp [List.isPrefixOf] at h
    | d :: ds =>
      simp only [List.isPrefixOf, Bool.and_eq_true, beq_iff_eq] at h
      obtain ⟨rfl, hrest⟩ := h
      simpa using ih ds hrest

theorem parseAlt_cons_hit (p : List Char) (ps : List (List Char)) (r : List Char) :
    parseAlt (p :: ps) (p ++ r) = some (p, r) := by
  simp [parseAlt, stripLit_self]

theorem parseAlt_cons_miss {p l : List Char} (h : stripLit p l = none)
    (ps : List (List Char)) : parseAlt (p :: ps) l = parseAlt ps l := by
  simp [parseAlt, h]

theorem parseAlt_nil (l : List Char) : parseAlt [] l = none := rfl

theorem scheme_parse :
    ∀ s ∈ schemeLits, ∀ r, parseAlt schemeLits (s ++ r) = some (s, r) := by
  intro s hs r
  simp only [schemeLits, List.mem_cons, List.mem_singleton, List.not_mem_nil, or_false] at hs
  rcases hs with rfl | rfl
  · exact parseAlt_cons_hit _ _ _
  · have h1 : stripLit ['h','t','t','p','s',':','/','/']
        (['h','t','t','p',':','/','/'] ++ r) = none := by
      show stripLit (['h','t','t','p'] ++ ['s',':','/','/'])
        (['h','t','t','p'] ++ (':' :: ('/' :: '/' :: r))) = none
      rw [stripLit_peel]
      exact stripLit_head_ne (by decide) _ _
    show parseAlt (['h','t','t','p','s',':','/','/'] ::
      [['h','t','t','p',':','/','/']]) (['h','t','t','p',':','/','/'] ++ r) = _
    rw [parseAlt_cons_miss h1]
    exact parseAlt_cons_hit _ _ _

theorem host_none_y : ∀ r, parseAlt hostLits ('y' :: r) = none := by
  intro r
  show parseAlt (['w','w','w','.'] :: [['m','u','s','i','c','.']]) ('y' :: r) = none
  rw [parseAlt_cons_miss (stripLit_head_ne (by decide) _ _),
    parseAlt_cons_miss (stripLit_head_ne (by decide) _ _)]
  rfl

theorem host_none_path :
    ∀ p ∈ pathLits, ∀ r, parseAlt hostLits (p ++ r) = none := by
  intro p hp r
  simp only [pathLits, List.mem_cons, List.mem_singleton, List.not_mem_nil, or_false] at hp
  rcases hp with rfl | rfl | rfl
  · exact host_none_y _
  · exact host_none_y _
  · exact host_none_y _

theorem host_parse_www :
    ∀ r, parseAlt hostLits (['w','w','w','.'] ++ r) = some (['w','w','w','.'], r) := by
  intro r
  exact parseAlt_cons_hit _ _ _

theorem host_parse_music :
    ∀ r, parseAlt hostLits (['m','u','s','i','c','.'] ++ r) =
      some (['m','u','s','i','c','.'], r) := by
  intro r
  show parseAlt (['w','w','w','.'] :: [['m','u','s','i','c','.']])
    ('m' :: (['u','s','i','c','.'] ++ r)) = _
  rw [parseAlt_cons_miss (stripLit_head_ne (by decide) _ _)]
  exact parseAlt_cons_hit ['m','u','s','i','c','.'] [] r

theorem path_parse :
    ∀ p ∈ pathLits, ∀ r, parseAlt pathLits (p ++ r) = some (p, r) := by
  intro p hp r
  simp only [pathLits, List.mem_cons, List.mem_singleton, List.not_mem_nil, or_false] at hp
  rcases hp with rfl | rfl | rfl
  · exact parseAlt_cons_hit _ _ _
  · have h1 : stripLit
        ['y','o','u','t','u','b','e','.','c','o','m','/','w','a','t','c','h','?','v','=']
        (['y','o','u','t','u','b','e','.','c','o','m','/','s','h','o','r','t','s','/'] ++ r)
        = none := by
      show stripLit
        (['y','o','u','t','u','b','e','.','c','o','m','/'] ++ ['w','a','t','c','h','?','v','='])
        (['y','o','u','t','u','b','e','.','c','o','m','/'] ++
          ('s' :: (['h','o','r','t','s','/'] ++ r))) = none
      rw [stripLit_peel]
      exact stripLit_head_ne (by decide) _ _
    show parseAlt (_ :: _) (['y','o','u','t','u','b','e','.','c','o','m','/','s','h','o','r','t','s','/'] ++ r) = _
    rw [parseAlt_cons_miss h1]
    exact parseAlt_cons_hit _ _ _
  · have h1 : stripLit
        ['y','o','u','t','u','b','e','.','c','o','m','/','w','a','t','c','h','?','v','=']
        (['y','o','u','t','u','.','b','e','/'] ++ r) = none := by
      show stripLit
        (['y','o','u','t','u'] ++ ['b','e','.','c','o','m','/','w','a','t','c','h','?','v','='])
        (['y','o','u','t','u'] ++ ('.' :: (['b','e','/'] ++ r))) = none
      rw [stripLit_peel]
      exact stripLit_head_ne (by decide) _ _
    have h2 : stripLit
        ['y','o','u','t','u','b','e','.','c','o','m','/','s','h','o','r','t','s','/']
        (['y','o','u','t','u','.','b','e','/'] ++ r) = none := by
      show stripLit
        (['y','o','u','t','u'] ++ ['b','e','.','c','o','m','/','s','h','o','r','t','s','/'])
        (['y','o','u','t','u'] ++ ('.' :: (['b','e','/'] ++ r))) = none
      rw [stripLit_peel]
      exact stripLit_head_ne (by decide) _ _
    show parseAlt (_ :: _ :: _) (['y','o','u','t','u','.','b','e','/'] ++ r) = _
    rw [parseAlt_cons_miss h1, parseAlt_cons_miss h2]
    exact parseAlt_cons_hit _ _ _

theorem takeWordDash_exact :
    ∀ (idc rest : List Char), (∀ c ∈ idc, isWordDash c = true) →
      takeWordDash idc.length (idc ++ rest) = some (idc, rest) := by
  intro idc
  induction idc with
  | nil => intro rest _; rfl
  | cons c cs ih =>
    intro rest hall
    have hc : isWordDash c = true := hall c (by simp)
    have := ih rest (fun d hd => hall d (by simp [hd]))
    simp [takeWordDash, hc, this]

theorem takeWordDash_some_decomp :
    ∀ (n : Nat) (l pre rest : List Char), takeWordDash n l = some (pre, rest) →
      l = pre ++ rest ∧ pre.length = n ∧ ∀ c ∈ pre, isWordDash c = true := by
  intro n
  induction n with
  | zero =>
    intro l pre rest h
    simp only [takeWordDash, Option.some.injEq, Prod.mk.injEq] at h
    obtain ⟨rfl, rfl⟩ := h
    simp
  | succ n ih =>
    intro l pre rest h
    match l with
    | [] => simp [takeWordDash] at h
    | c :: cs =>
      simp only [takeWordDash] at h
      by_cases hw : isWordDash c
      · rw [if_pos hw] at h
        cases htk : takeWordDash n cs with
        | none => rw [htk] at h; simp at h
        | some pr =>
          rw [htk] at h
          simp only [Option.some.injEq, Prod.mk.injEq] at h
          obtain ⟨hpre, hrest⟩ := h
          obtain ⟨hd, hlen, hall⟩ := ih cs pr.1 pr.2 (by rw [htk])
          subst hrest
          refine ⟨?_, ?_, ?_⟩
          · rw [← hpre]; simp [hd]
          · rw [← hpre]; simp [hlen]
          · intro d hdmem
            rw [← hpre] at hdmem
            rcases List.mem_cons.mp hdmem with rfl | hdm
            · exact hw
            · exact hall d hdm
      · rw [if_neg hw] at h; simp at h

theorem takeWhile_nonspace_append :
    ∀ (t a : List Char), t.all (fun c => !(isSpaceChar c)) = true → boundaryOk a = true →
      (t ++ a).takeWhile (fun c => !(isSpaceChar c)) = t := by
  intro t
  induction t with
  | nil =>
    intro a _ hb
    match a with
    | [] => rfl
    | c :: cs =>
      simp only [boundaryOk] at hb
      simp [List.takeWhile, hb]
  | cons c cs ih =>
    intro a hall hb
    simp only [List.all_cons, Bool.and_eq_true] at hall
    simp [List.takeWhile, hall.1, ih a hall.2 hb]

theorem drop_append_self : ∀ (x y : List Char), (x ++ y).drop x.length = y := by
  intro x
  induction x with
  | nil => intro y; rfl
  | cons c cs ih => intro y; simp [ih]

theorem take_append_self : ∀ (x y : List Char), (x ++ y).take x.length = x := by
  intro x
  induction x with
  | nil => intro y; rfl
  | cons c cs ih => intro y; simp [ih]

theorem matchYoutubeAt_complete :
    ∀ (u a : List Char), wellFormedYoutubeURL u = true → boundaryOk a = true →
      matchYoutubeAt (u ++ a) = some u := by
  intro u a hw hb
  simp only [wellFormedYoutubeURL, List.any_eq_true] at hw
  obtain ⟨s, hs, h, hh, p, hp, hcond⟩ := hw
  simp only [Bool.and_eq_true, decide_eq_true_eq, List.all_eq_true] at hcond
  obtain ⟨hpre, ⟨hlen, hid⟩, htl⟩ := hcond
  have hu : u = (s ++ h ++ p) ++ u.drop (s ++ h ++ p).length := isPrefixOf_decomp _ _ hpre
  obtain ⟨idc, tl, hteq, hlen11, hid2, htl2⟩ :
      ∃ idc tl, u.drop (s ++ h ++ p).length = idc ++ tl ∧ idc.length = 11 ∧
        (∀ c ∈ idc, isWordDash c = true) ∧ tl.all (fun c => !(isSpaceChar c)) = true := by
    refine ⟨(u.drop (s ++ h ++ p).length).take 11, (u.drop (s ++ h ++ p).length).drop 11,
      (List.take_append_drop 11 _).symm, ?_, hid, List.all_eq_true.mpr htl⟩
    rw [List.length_take]
    exact min_eq_left hlen
  rw [hteq] at hu
  clear hteq hpre hlen hid htl
  subst hu
  have e4 : takeWordDash 11 (idc ++ (tl ++ a)) = some (idc, tl ++ a) := by
    rw [← hlen11]
    exact takeWordDash_exact idc (tl ++ a) hid2
  have e5 : (tl ++ a).takeWhile (fun c => !(isSpaceChar c)) = tl :=
    takeWhile_nonspace_append tl a htl2 hb
  simp only [hostOpts, hostLits, List.mem_cons, List.not_mem_nil, or_false] at hh
  rcases hh with rfl | rfl | rfl
  · have e1 : parseAlt schemeLits (s ++ (p ++ (idc ++ (tl ++ a)))) =
        some (s, p ++ (idc ++ (tl ++ a))) := scheme_parse s hs _
    have e2 : parseAlt hostLits (p ++ (idc ++ (tl ++ a))) = none := host_none_path p hp _
    have e3 : parseAlt pathLits (p ++ (idc ++ (tl ++ a))) =
        some (p, idc ++ (tl ++ a)) := path_parse p hp _
    simp only [List.append_assoc, List.nil_append, List.append_nil]
    simp only [matchYoutubeAt, e1, e2, e3, e4, e5]
    simp [List.append_assoc]
  · have e1 : parseAlt schemeLits
        (s ++ (['w','w','w','.'] ++ (p ++ (idc ++ (tl ++ a))))) =
        some (s, ['w','w','w','.'] ++ (p ++ (idc ++ (tl ++ a)))) := scheme_parse s hs _
    have e2 : parseAlt hostLits (['w','w','w','.'] ++ (p ++ (idc ++ (tl ++ a)))) =
        some (['w','w','w','.'], p ++ (idc ++ (tl ++ a))) := host_parse_www _
    have e3 : parseAlt pathLits (p ++ (idc ++ (tl ++ a))) =
        some (p, idc ++ (tl ++ a)) := path_parse p hp _
    simp only [List.append_assoc, List.nil_append, List.append_nil]
    simp only [matchYoutubeAt, e1, e2, e3, e4, e5]
    simp [List.append_assoc]
  · have e1 : parseAlt schemeLits
        (s ++ (['m','u','s','i','c','.'] ++ (p ++ (idc ++ (tl ++ a))))) =
        some (s, ['m','u','s','i','c','.'] ++ (p ++ (idc ++ (tl ++ a)))) := scheme_parse s hs _
    have e2 : parseAlt hostLits (['m','u','s','i','c','.'] ++ (p ++ (idc ++ (tl ++ a)))) =
        some (['m','u','s','i','c','.'], p ++ (idc ++ (tl ++ a))) := host_parse_music _
    have e3 : parseAlt pathLits (p ++ (idc ++ (tl ++ a))) =
        some (p, idc ++ (tl ++ a)) := path_parse p hp _
    simp only [List.append_assoc, List.nil_append, List.append_nil]
    simp only [matchYoutubeAt, e1, e2, e3, e4, e5]
    simp [List.append_assoc]

theorem matchYoutubeAt_shape :
    ∀ {l m : List Char}, matchYoutubeAt l = some m → urlShapeAt l = true := by
  intro l m hm
  unfold matchYoutubeAt at hm
  cases hsch : parseAlt schemeLits l with
  | none => rw [hsch] at hm; simp at hm
  | some sr =>
    obtain ⟨s, r1⟩ := sr
    rw [hsch] at hm
    obtain ⟨hs, hldec⟩ := parseAlt_some_decomp hsch
    simp only at hm
    have hhost : ∃ h r2, (match parseAlt hostLits r1 with
        | some p => p
        | none => (([] : List Char), r1)) = (h, r2) ∧ h ∈ hostOpts ∧ r1 = h ++ r2 := by
      cases hho : parseAlt hostLits r1 with
      | none => exact ⟨[], r1, by simp [hho], by simp [hostOpts], rfl⟩
      | some hr =>
        obtain ⟨h0, r0⟩ := hr
        obtain ⟨hmem, hdec⟩ := parseAlt_some_decomp hho
        exact ⟨h0, r0, by simp [hho], by simp [hostOpts, hmem], hdec⟩
    obtain ⟨h, r2, hhr, hhmem, hr1⟩ := hhost
    rw [hhr] at hm
    simp only at hm
    cases hpath : parseAlt pathLits r2 with
    | none => rw [hpath] at hm; simp at hm
    | some pr =>
      obtain ⟨p, r3⟩ := pr
      rw [hpath] at hm
      obtain ⟨hpmem, hr2⟩ := parseAlt_some_decomp hpath
      simp only at hm
      cases htk : takeWordDash 11 r3 with
      | none => rw [htk] at hm; simp at hm
      | some ir =>
        obtain ⟨idc, r4⟩ := ir
        obtain ⟨hr3, hlen11, hall⟩ := takeWordDash_some_decomp 11 r3 idc r4 htk
        have hldec2 : l = (s ++ h ++ p) ++ (idc ++ r4) := by
          rw [hldec, hr1, hr2, hr3]
          simp [List.append_assoc]
        simp only [urlShapeAt, List.any_eq_true]
        refine ⟨s, hs, h, hhmem, p, hpmem, ?_⟩
        simp only [Bool.and_eq_true, decide_eq_true_eq, List.all_eq_true]
        rw [hldec2]
        refine ⟨isPrefixOf_append_self _ _, ?_, ?_⟩
        · rw [drop_append_self]
          simp [hlen11]
        · rw [drop_append_self, ← hlen11, take_append_self]
          exact hall

theorem extractYoutubeURL_of_matchYoutubeAt {l m : List Char}
    (hm : matchYoutubeAt l = some m) : extractYoutubeURL l = some m := by
  match l with
  | [] => rw [extractYoutubeURL, hm]
  | c :: rest => rw [extractYoutubeURL, hm]

theorem extractYoutubeURL_cons_none {c : Char} {rest : List Char}
    (hm : matchYoutubeAt (c :: rest) = none) :
    extractYoutubeURL (c :: rest) = extractYoutubeURL rest := by
  rw [extractYoutubeURL, hm]

theorem matchYoutubeAt_none_of_not_shape {l : List Char}
    (hsh : urlShapeAt l = false) : matchYoutubeAt l = none := by
  cases hm : matchYoutubeAt l with
  | none => rfl
  | some m =>
    have := matchYoutubeAt_shape hm
    rw [hsh] at this
    cases this

/-! ## Claim theorems -/

/-- C1: evaluation at the failing input.  Two candidate entries share tier
`"360p"` (both height 400) with filesizes 100 and 200; the ladder keeps the
entry with filesize 200 — the **largest** — because the ascending sort makes
the largest entry the last write into the tier slot.  The claim (and the
source's own comments "sort by filesize in reverse (largest first)", "smaller
files take precedence over larger ones") say the smallest should win. -/
theorem existingFormats_keeps_largest_per_tier :
    existingFormats
      [⟨['f','1'], some "avc1", some "none", some 100, some 400, some 640⟩,
       ⟨['f','2'], some "avc1", some "none", some 200, some 400, some 640⟩] =
      [("360p", ⟨['f','2'], 200, 400, some 640⟩)] := by
  decide

/-- C2: the quality mapping sends height 200 to `"240p"`, height 480 to
`"480p"`, height 2200 to `"4K"`, every height ≥ 2160 to `"4K"`, and never
produces `"144p"`. -/
theorem getQualityID_spec :
    getQualityID 200 = "240p" ∧ getQualityID 480 = "480p" ∧ getQualityID 2200 = "4K" ∧
    (∀ h, 2160 ≤ h → getQualityID h = "4K") ∧ (∀ h, getQualityID h ≠ "144p") := by
  refine ⟨by decide, by decide, by decide, ?_, ?_⟩
  · intro h hh
    unfold getQualityID QUALITY_LEVELS
    have step : ∀ (a : Nat × String) (l : List (Nat × String)), a.1 ≤ 2160 →
        (a :: l).find? (fun level => decide (h < level.1)) =
          l.find? (fun level => decide (h < level.1)) := by
      intro a l ha
      apply List.find?_cons_of_neg
      simp only [decide_eq_true_eq]
      omega
    rw [step _ _ (by norm_num), step _ _ (by norm_num), step _ _ (by norm_num),
      step _ _ (by norm_num), step _ _ (by norm_num), step _ _ (by norm_num)]
    by_cases h4 : h < 4320
    · rw [List.find?_cons_of_pos _ (by simpa using h4)]
    · rw [List.find?_cons_of_neg _ (by simpa using h4)]
      rfl
  · intro h
    unfold getQualityID
    cases hf : QUALITY_LEVELS.find? (fun level => decide (h < level.1)) with
    | none => simp
    | some lv =>
      have hmem := List.mem_of_find?_eq_some hf
      simp only [QUALITY_LEVELS, List.mem_cons, List.not_mem_nil, or_false] at hmem
      rcases hmem with rfl | rfl | rfl | rfl | rfl | rfl | rfl <;> decide

/-- C2 witness: the universally quantified parts of `getQualityID_spec`
instantiated at heights 5000 and 100. -/
theorem getQualityID_spec_witness :
    getQualityID 5000 = "4K" ∧ getQualityID 100 ≠ "144p" :=
  ⟨getQualityID_spec.2.2.2.1 5000 (by decide), getQualityID_spec.2.2.2.2 100⟩

/-- C3 counterexample: with the media file absent but thumbnail and
description present, only the media deletion is attempted; the thumbnail and
description survive, refuting independence of the three deletions. -/
theorem cleanUpFiles_not_independent :
    cleanUpFiles ["v.jpg", "v-descr.txt"] "v.mp4" "v.jpg" "v-descr.txt" =
      ⟨["v.jpg", "v-descr.txt"], ["v.mp4"]⟩ ∧
    ("v.mp4" : String) ∉ (["v.jpg", "v-descr.txt"] : List String) ∧
    (["v.mp4"] : List String) ≠ ["v.mp4", "v.jpg", "v-descr.txt"] := by
  decide

/-- C3 amended: the three deletions run in one guard.  When each file is
present in turn all three are attempted and removed (and nothing is raised —
the function is total); when the first deletion fails the remaining two are
not attempted. -/
theorem cleanUpFiles_single_guard :
    (∀ (fs : List String) (s t d : String), s ∈ fs → t ∈ fs.erase s →
      d ∈ (fs.erase s).erase t →
      cleanUpFiles fs s t d = ⟨((fs.erase s).erase t).erase d, [s, t, d]⟩) ∧
    (∀ (fs : List String) (s t d : String), s ∉ fs →
      cleanUpFiles fs s t d = ⟨fs, [s]⟩) := by
  constructor
  · intro fs s t d hs ht hd
    simp [cleanUpFiles, unlinkSync, hs, ht, hd]
  · intro fs s t d hs
    simp [cleanUpFiles, unlinkSync, hs]

/-- C3 witness: `cleanUpFiles_single_guard` applied to a concrete session
whose three files all exist. -/
theorem cleanUpFiles_single_guard_witness :
    cleanUpFiles ["a.mp4", "a.jpg", "a-descr.txt"] "a.mp4" "a.jpg" "a-descr.txt" =
      ⟨((((["a.mp4", "a.jpg", "a-descr.txt"] : List String).erase "a.mp4").erase
          "a.jpg").erase "a-descr.txt"),
        ["a.mp4", "a.jpg", "a-descr.txt"]⟩ :=
  cleanUpFiles_single_guard.1 ["a.mp4", "a.jpg", "a-descr.txt"] "a.mp4" "a.jpg"
    "a-descr.txt" (by decide) (by decide) (by decide)

/-- C4 counterexample: 1 GiB is rendered `"1GB"`, not `"1.0GB"`, because
`parseFloat` drops the trailing `.0` produced by `toFixed(1)`. -/
theorem formatSize_gib_counterexample :
    formatSize 1073741824 = ("1GB" : String).toList ∧
    ("1GB" : String).toList ≠ ("1.0GB" : String).toList := by
  decide

/-- C4 amended: the unit is chosen by `floor(log_1024(size_in_KB))` and the
value is rendered with at most one decimal place, a trailing `.0` being
dropped: 1,572,864 bytes → `"1.5MB"`, 1,073,741,824 bytes → `"1GB"`, and
2,684,354,560 bytes → `"2.5GB"`. -/
theorem formatSize_amended :
    formatSize 1572864 = ("1.5MB" : String).toList ∧
    formatSize 1073741824 = ("1GB" : String).toList ∧
    formatSize 2684354560 = ("2.5GB" : String).toList := by
  decide

/-- C5: encode/decode round trip of a SelectionAction whose fields contain no
`|`.  The decoded format spec, duration, height and width equal the encoded
field strings, the decoded originating message id equals the encoded number,
and `isAudio` is `false` for video payloads and `true` for the audio payload
(whose height and width round-trip as the empty fields they were encoded
from). -/
theorem selectionAction_roundtrip :
    (∀ (vid fid : List Char) (dur h w mid : Nat), '|' ∉ vid → '|' ∉ fid →
      decodeCallbackData (encodeVideoAction vid fid dur h (some w) mid) =
        ⟨vid, fid ++ plusBA, natToChars dur, natToChars h, natToChars w,
          some mid, false⟩) ∧
    (∀ (vid : List Char) (dur mid : Nat), '|' ∉ vid →
      decodeCallbackData (encodeAudioAction vid dur mid) =
        ⟨vid, ['b', 'a'], natToChars dur, [], [], some mid, true⟩) := by
  constructor
  · intro vid fid dur h w mid hv hf
    simp only [encodeVideoAction, optNatChars]
    have hsplit : splitOnChar '|' (joinPipe [vid, fid ++ plusBA, natToChars dur,
        natToChars h, natToChars w, natToChars mid]) =
        [vid, fid ++ plusBA, natToChars dur, natToChars h, natToChars w,
          natToChars mid] := by
      apply splitOnChar_joinPipe (by simp)
      intro x hx
      simp only [List.mem_cons, List.not_mem_nil, or_false] at hx
      rcases hx with rfl | rfl | rfl | rfl | rfl | rfl
      · exact hv
      · intro hmem
        rcases List.mem_append.mp hmem with hm | hm
        · exact hf hm
        · simp [plusBA] at hm
      · exact pipe_not_mem_natToChars dur
      · exact pipe_not_mem_natToChars h
      · exact pipe_not_mem_natToChars w
      · exact pipe_not_mem_natToChars mid
    simp [decodeCallbackData, hsplit, parseIntList_natToChars,
      List.isEmpty_iff, natToChars_ne_nil]
  · intro vid dur mid hv
    have hsplit : splitOnChar '|' (joinPipe [vid, ['b', 'a'], natToChars dur,
        [], [], natToChars mid]) =
        [vid, ['b', 'a'], natToChars dur, [], [], natToChars mid] := by
      apply splitOnChar_joinPipe (by simp)
      intro x hx
      simp only [List.mem_cons, List.not_mem_nil, or_false] at hx
      rcases hx with rfl | rfl | rfl | rfl | rfl | rfl
      · exact hv
      · decide
      · exact pipe_not_mem_natToChars dur
      · simp
      · simp
      · exact pipe_not_mem_natToChars mid
    simp [decodeCallbackData, encodeAudioAction, hsplit, parseIntList_natToChars]

/-- C5 witness: `selectionAction_roundtrip` at a concrete video action and a
concrete audio action. -/
theorem selectionAction_roundtrip_witness :
    decodeCallbackData (encodeVideoAction ['a', 'b'] ['1', '3', '7'] 212 1080
        (some 1920) 42) =
      ⟨['a', 'b'], ['1', '3', '7'] ++ plusBA, natToChars 212, natToChars 1080,
        natToChars 1920, some 42, false⟩ ∧
    decodeCallbackData (encodeAudioAction ['a', 'b'] 212 42) =
      ⟨['a', 'b'], ['b', 'a'], natToChars 212, [], [], some 42, true⟩ :=
  ⟨selectionAction_roundtrip.1 ['a', 'b'] ['1', '3', '7'] 212 1080 1920 42
      (by decide) (by decide),
   selectionAction_roundtrip.2 ['a', 'b'] 212 42 (by decide)⟩

/-- C6 counterexample: for a format list whose only entry is video-only (audio
codec `"none"`), `largest_audio` is `undefined` and menu construction throws
on dereferencing its filesize (`Except.error`), instead of succeeding with
the audio entry omitted or flagged. -/
theorem buildInlineKeyboard_no_audio_counterexample :
    largestAudioTrack
      [⟨['v'], some "avc1", some "none", some 100, some 400, some 640⟩] = none ∧
    buildInlineKeyboard ['a'] 10 1
      (existingFormats
        [⟨['v'], some "avc1", some "none", some 100, some 400, some 640⟩])
      (largestAudioTrack
        [⟨['v'], some "avc1", some "none", some 100, some 400, some 640⟩]) =
      Except.error () := by
  constructor
  · decide
  · rfl

/-- C6 amended: whenever the format list has no audio-bearing entry with a
known filesize (`largestAudioTrack` is `undefined`), menu construction fails
with the `TypeError` of dereferencing the absent entry, for every video id,
duration, message id and tier ladder. -/
theorem buildInlineKeyboard_no_audio_throws :
    ∀ (formats : List FormatEntry) (vid : List Char) (dur mid : Nat)
      (entries : List (String × TierSlot)), largestAudioTrack formats = none →
      buildInlineKeyboard vid dur mid entries (largestAudioTrack formats) =
        Except.error () := by
  intro formats vid dur mid entries hla
  rw [hla]
  rfl

/-- C6 witness: `buildInlineKeyboard_no_audio_throws` at the empty format
list. -/
theorem buildInlineKeyboard_no_audio_throws_witness :
    buildInlineKeyboard ['a'] 1 1 [] (largestAudioTrack []) = Except.error () :=
  buildInlineKeyboard_no_audio_throws [] ['a'] 1 1 [] (by rfl)

/-- C7 counterexample: with the description file absent the audio metadata is
the pair of empty strings, not the claimed video-id / `"Unknown Artist"`
fallback; and with a present but truncated (single-line) description the
computation throws instead of never failing. -/
theorem audioMeta_fallback_counterexample :
    audioMetaOfDescription none (("dQw4w9WgXcQ" : String).toList) =
      AudioMetaResult.ok [] [] ∧
    AudioMetaResult.ok ([] : List Char) [] ≠
      AudioMetaResult.ok (("dQw4w9WgXcQ" : String).toList) UNKNOWN_ARTIST ∧
    audioMetaOfDescription (some (("<b>[3m 32s]</b> Song" : String).toList))
      (("dQw4w9WgXcQ" : String).toList) = AudioMetaResult.throwTypeError := by
  decide

/-- C7 amended: with no description file, title and performer are both the
empty string; with a description that has no second line, the computation
throws a `TypeError`; with a well-shaped two-line description, the title comes
from line 1 and the performer from line 2 with the first `" - Topic"`
occurrence removed. -/
theorem audioMeta_amended :
    (∀ vid, audioMetaOfDescription none vid = AudioMetaResult.ok [] []) ∧
    (∀ (vid d : List Char), '\n' ∉ d →
      audioMetaOfDescription (some d) vid = AudioMetaResult.throwTypeError) ∧
    audioMetaOfDescription
      (some (("<b>[3m 32s]</b> Song\nBy <b>Artist - Topic</b>\nhttps://x" :
        String).toList))
      (("vid" : String).toList) =
      AudioMetaResult.ok (("Song" : String).toList) (("Artist" : String).toList) := by
  refine ⟨fun vid => rfl, ?_, by decide⟩
  intro vid d hnl
  simp [audioMetaOfDescription, splitOnChar_no_sep hnl]

/-- C7 witness: `audioMeta_amended` applied to a concrete newline-free
description. -/
theorem audioMeta_amended_witness :
    audioMetaOfDescription (some ['x']) ['v'] = AudioMetaResult.throwTypeError :=
  audioMeta_amended.2.1 ['v'] ['x'] (by decide)

/-- C8: a failed metadata fetch is classified as the bad-URL category exactly
when the error text contains `"not a valid URL"`, otherwise as the generic
info-fetch category, and the URL-message handler and the `/format` command
handler classify identically. -/
theorem classifyFetchError_spec :
    ∀ e : List Char,
      (classifyFetchErrorURLMessage e = ErrorCategory.badURL ↔
        includesSubstr e NOT_A_VALID_URL = true) ∧
      (classifyFetchErrorURLMessage e = ErrorCategory.atGettingInfo ↔
        ¬ includesSubstr e NOT_A_VALID_URL = true) ∧
      classifyFetchErrorURLMessage e = classifyFetchErrorFormatCommand e := by
  intro e
  unfold classifyFetchErrorURLMessage classifyFetchErrorFormatCommand
  by_cases hinc : includesSubstr e NOT_A_VALID_URL <;> simp [hinc]

/-- C9: if the input decomposes as prose `b`, then a well-formed YouTube URL
`u` ending at whitespace or end of text, and no URL shape starts inside the
prose, the extractor returns exactly `u`; and an input in which no URL shape
starts anywhere yields no match. -/
theorem extractYoutubeURL_spec :
    (∀ (b u a : List Char), wellFormedYoutubeURL u = true → boundaryOk a = true →
      (∀ i, i < b.length → urlShapeAt ((b ++ u ++ a).drop i) = false) →
      extractYoutubeURL (b ++ u ++ a) = some u) ∧
    (∀ text : List Char, (∀ i, i ≤ text.length → urlShapeAt (text.drop i) = false) →
      extractYoutubeURL text = none) := by
  constructor
  · intro b
    induction b with
    | nil =>
      intro u a hw hb _
      simp only [List.nil_append]
      exact extractYoutubeURL_of_matchYoutubeAt (matchYoutubeAt_complete u a hw hb)
    | cons c b ih =>
      intro u a hw hb hno
      have h0 : urlShapeAt (c :: (b ++ u ++ a)) = false := by
        simpa using hno 0 (by simp)
      have hm : matchYoutubeAt (c :: (b ++ u ++ a)) = none :=
        matchYoutubeAt_none_of_not_shape h0
      simp only [List.cons_append]
      rw [extractYoutubeURL_cons_none hm]
      refine ih u a hw hb ?_
      intro i hi
      simpa using hno (i + 1) (by simp; omega)
  · intro text
    induction text with
    | nil => intro _; rfl
    | cons c rest ih =>
      intro hall
      have h0 : urlShapeAt (c :: rest) = false := by
        simpa using hall 0 (by simp)
      rw [extractYoutubeURL_cons_none (matchYoutubeAt_none_of_not_shape h0)]
      refine ih ?_
      intro i hi
      simpa using hall (i + 1) (by simp; omega)

/-- C9 witness: `extractYoutubeURL_spec` at the spec's own example text (the
URL preceded by prose, query string retained) and at a URL-free text. -/
theorem extractYoutubeURL_spec_witness :
    extractYoutubeURL (("go " : String).toList ++
        ("https://youtu.be/dQw4w9WgXcQ?feature=share" : String).toList ++ []) =
      some (("https://youtu.be/dQw4w9WgXcQ?feature=share" : String).toList) ∧
    extractYoutubeURL (("hello world" : String).toList) = none :=
  ⟨extractYoutubeURL_spec.1 _ _ _ (by decide) (by decide) (by decide),
   extractYoutubeURL_spec.2 _ (by decide)⟩

/-- C10: the bare `/format` command (no following space or argument) makes
the handler constructor throw — `split("/format ")` has no second component,
so the URL extractor is applied to `undefined` — rather than marking the
handler invalid and replying with the guidance message (the outcome reached
when an argument is present but holds no YouTube URL). -/
theorem formatCommandCtor_bare_throws :
    formatCommandCtor (("/format" : String).toList) =
      FormatCtorOutcome.throwTypeError ∧
    FormatCtorOutcome.throwTypeError ≠ FormatCtorOutcome.invalidWithReply ∧
    formatCommandCtor (("/format hello" : String).toList) =
      FormatCtorOutcome.invalidWithReply := by
  decide
